import Mathlib

/-!
Verification of the device-communication protocol layer of the
micropython-plotter-poc repository, as a shallow embedding in Lean.

Byte streams are modelled as `List Nat` (each element a byte value 0..255),
Python `str` values as `String` / `List Char`.  Timeouts are abstracted:
a `read_until`-style loop sees exactly the scripted bytes of the modelled
device, and "timeout" corresponds to exhausting the script.  Qt signal
emissions are modelled as elements of explicit event lists.  The transport
model never raises, so `except`-branches of the Python code that only
convert exceptions have no analogue and are noted at each definition.
-/

set_option linter.unusedVariables false

/-! ### Generic byte/string helpers (Python substring primitives) -/

/-- Decidable prefix test on lists; used to model Python substring search. -/
def isPre {α : Type} [DecidableEq α] : List α → List α → Bool
  | [], _ => true
  | _ :: _, [] => false
  | a :: as, b :: bs => if a = b then isPre as bs else false

/-- Index of the first occurrence of `pat` (Python `str.find`, `bytes.find`);
`none` models the return value `-1`. -/
def strFind {α : Type} [DecidableEq α] (pat : List α) : List α → Option Nat
  | [] => if isPre pat [] then some 0 else none
  | c :: r => if isPre pat (c :: r) then some 0 else (strFind pat r).map (· + 1)

/-- Python `pat in s` for substrings. -/
def containsB {α : Type} [DecidableEq α] (s pat : List α) : Bool :=
  (strFind pat s).isSome

/-- Python `s.endswith(term)`. -/
def endsWithB {α : Type} [DecidableEq α] (s term : List α) : Bool :=
  isPre term.reverse s.reverse

/-- Bytes of an ASCII string (UTF-8 encoding restricted to ASCII payloads). -/
def strBytes (s : String) : List Nat := s.toList.map Char.toNat

/-! ### PlotStreamHandler (src/src/worker/plot_stream_handler.py)

The handler's Qt signals are modelled as an event list.  `Ev.text` carries the
raw bytes handed to `text_data_received` (the UTF-8 `decode(errors="replace")`
at the signal boundary is a pure function of those bytes and does not affect
which events are emitted).  `Ev.config` likewise carries the raw bytes of each
channel name.  `Ev.suppressed` marks the suppression branch of
`_emit_text_bytes`, which only logs and emits nothing. -/

inductive Ev where
  | plot (values : List Nat)
  | config (names : List (List Nat))
  | text (data : List Nat)
  | suppressed (data : List Nat)
deriving DecidableEq

inductive PacketP where
  | plot (values : List Nat)
  | config (names : List (List Nat))
deriving DecidableEq

/-- The mutable state of a `PlotStreamHandler`: the rolling byte buffer and
the `_config_received` flag. -/
structure HandlerState where
  buffer : List Nat
  config_received : Bool
deriving DecidableEq

/-- `PlotStreamHandler.reset_config_state`. -/
def reset_config_state (st : HandlerState) : HandlerState :=
  { st with config_received := false }

/-- `PlotStreamHandler._emit_text_bytes`: empty data emits nothing; data that
looks like a plot/config header (first byte 0xAA, second 0x01 or 0x02) is
suppressed (only logged); otherwise the bytes are emitted as text. -/
def emit_text_bytes : List Nat → List Ev
  | [] => []
  | [a] => [Ev.text [a]]
  | a :: b :: rest =>
    if a = 0xAA ∧ (b = 0x01 ∨ b = 0x02) then [Ev.suppressed (a :: b :: rest)]
    else [Ev.text (a :: b :: rest)]

/-- The sync-byte scan of `_try_read_packet` step 1: index of the first
0xAA in the buffer, if any. -/
def findSync : List Nat → Option Nat
  | [] => none
  | b :: rest => if b = 0xAA then some 0 else (findSync rest).map (· + 1)

/-- Decoding loop of `_try_read_plot_packet`:
`val = buffer[idx] | (buffer[idx + 1] << 8)` for each of `n` values. -/
def decodeU16 : Nat → List Nat → List Nat
  | 0, _ => []
  | n + 1, lo :: hi :: rest => (lo ||| (hi <<< 8)) :: decodeU16 n rest
  | _ + 1, _ => []

/-- `PlotStreamHandler._try_read_plot_packet`, acting on a buffer already
known to start `0xAA 0x01`.  Returns the new buffer and the parsed packet:
fewer than 3 bytes waits; a count outside `1..=5` drops the sync byte;
an incomplete packet waits; a complete packet is consumed and decoded. -/
def try_read_plot_packet : List Nat → List Nat × Option PacketP
  | s :: t :: c :: rest =>
    if 1 ≤ c ∧ c ≤ 5 then
      if rest.length < c * 2 then (s :: t :: c :: rest, none)
      else (rest.drop (c * 2), some (PacketP.plot (decodeU16 c rest)))
    else (t :: c :: rest, none)
  | b => (b, none)

/-- The field walk of `_try_read_config_packet`: `n` repetitions of
`[length byte][length bytes]`, returning the names and the remaining
buffer, or `none` when the buffer does not yet contain a full field. -/
def read_name_fields : Nat → List Nat → Option (List (List Nat) × List Nat)
  | 0, rest => some ([], rest)
  | _ + 1, [] => none
  | n + 1, len :: rest =>
    if rest.length < len then none
    else
      match read_name_fields n (rest.drop len) with
      | none => none
      | some (names, rem) => some ((rest.take len) :: names, rem)

/-- `PlotStreamHandler._try_read_config_packet`, acting on a buffer already
known to start `0xAA 0x02`. -/
def try_read_config_packet : List Nat → List Nat × Option PacketP
  | s :: t :: c :: rest =>
    if 1 ≤ c ∧ c ≤ 5 then
      match read_name_fields c rest with
      | none => (s :: t :: c :: rest, none)
      | some (names, rem) => (rem, some (PacketP.config names))
    else (t :: c :: rest, none)
  | b => (b, none)

/-- `PlotStreamHandler._try_read_packet`: scan for the sync byte, emitting
everything before it as text; with no sync byte, flush the whole buffer as
text once it exceeds 1024 bytes; at a sync byte dispatch on the type byte
(0x01 plot, 0x02 config, anything else drops the sync byte).  Result:
(text events emitted, new buffer, parsed packet or `none`). -/
def try_read_packet (buf : List Nat) : List Ev × List Nat × Option PacketP :=
  match findSync buf with
  | none =>
    if 1024 < buf.length then (emit_text_bytes buf, [], none)
    else ([], buf, none)
  | some i =>
    let evs := emit_text_bytes (buf.take i)
    match buf.drop i with
    | s :: t :: rest2 =>
      if t = 0x01 then
        let r := try_read_plot_packet (s :: t :: rest2)
        (evs, r.1, r.2)
      else if t = 0x02 then
        let r := try_read_config_packet (s :: t :: rest2)
        (evs, r.1, r.2)
      else (evs, t :: rest2, none)
    | b => (evs, b, none)

/-- The `while` loop of `process_data`: repeatedly extract a unit from the
buffer; the loop stops when the buffer is empty or `_try_read_packet`
returned `None` (note that dropping a spurious sync byte also returns
`None` and therefore stops the loop).  A plot packet is emitted directly;
a config packet goes through `_handle_config_packet`, which emits only if
`_config_received` is still false and then sets it.  The fuel argument is
an upper bound on the number of iterations; `process_data` supplies more
fuel than the loop can ever consume, so the embedding is exact. -/
def processLoop : Nat → HandlerState → List Ev × HandlerState
  | 0, st => ([], st)
  | fuel + 1, st =>
    if st.buffer = [] then ([], st)
    else
      match try_read_packet st.buffer with
      | (evs, buf2, none) => (evs, { st with buffer := buf2 })
      | (evs, buf2, some (PacketP.plot vs)) =>
        let r := processLoop fuel { st with buffer := buf2 }
        (evs ++ Ev.plot vs :: r.1, r.2)
      | (evs, buf2, some (PacketP.config names)) =>
        if st.config_received then
          let r := processLoop fuel { st with buffer := buf2 }
          (evs ++ r.1, r.2)
        else
          let r := processLoop fuel { buffer := buf2, config_received := true }
          (evs ++ Ev.config names :: r.1, r.2)

/-- `PlotStreamHandler.process_data`: empty input returns immediately,
otherwise the chunk is appended to the buffer and the extraction loop runs. -/
def process_data (st : HandlerState) (raw_bytes : List Nat) : List Ev × HandlerState :=
  if raw_bytes = [] then ([], st)
  else processLoop (st.buffer.length + raw_bytes.length + 1) { st with buffer := st.buffer ++ raw_bytes }

/-- Feeding several chunks through successive `process_data` calls,
concatenating the emitted events. -/
def process_chunks (st : HandlerState) : List (List Nat) → List Ev × HandlerState
  | [] => ([], st)
  | c :: cs =>
    let r := process_data st c
    let r2 := process_chunks r.2 cs
    (r.1 ++ r2.1, r2.2)

/-- The text bytes contained in an event list, in emission order. -/
def textJoin : List Ev → List Nat
  | [] => []
  | Ev.text t :: rest => t ++ textJoin rest
  | _ :: rest => textJoin rest

/-! ### Wire encoders (device side, src/lib/mp_plotter.py) -/

/-- The data-packet packing of `_SignalPlotter.plot`:
header `0xAA 0x01 count`, then per value `v = int(x) & 0xFFFF`,
low byte `v & 0xFF`, high byte `v >> 8`. -/
def encode_plot_packet (values : List Nat) : List Nat :=
  0xAA :: 0x01 :: values.length ::
    (values.map (fun v => [(v &&& 0xFFFF) &&& 0xFF, (v &&& 0xFFFF) >>> 8])).flatten

/-- `_SignalPlotter._build_config_packet`: header `0xAA 0x02 count`, then for
each channel a length byte followed by the UTF-8 bytes of the name. -/
def encode_config_packet (names : List (List Nat)) : List Nat :=
  0xAA :: 0x02 :: names.length :: (names.map (fun nm => nm.length :: nm)).flatten

/-! ### Bit-level helper lemmas for the uint16 round trip -/

theorem testBit_mask255 (i : Nat) : Nat.testBit 0xFF i = decide (i < 8) := by
  rcases Nat.lt_or_ge i 8 with h | h
  · interval_cases i <;> decide
  · have h2 : (0xFF : Nat) < 2 ^ i :=
      lt_of_lt_of_le (by norm_num) (Nat.pow_le_pow_right (by norm_num) h)
    simp [Nat.testBit_lt_two_pow h2, Nat.not_lt_of_ge h]

theorem testBit_mask65535 (i : Nat) : Nat.testBit 0xFFFF i = decide (i < 16) := by
  rcases Nat.lt_or_ge i 16 with h | h
  · interval_cases i <;> decide
  · have h2 : (0xFFFF : Nat) < 2 ^ i :=
      lt_of_lt_of_le (by norm_num) (Nat.pow_le_pow_right (by norm_num) h)
    simp [Nat.testBit_lt_two_pow h2, Nat.not_lt_of_ge h]

/-- Reassembling the two little-endian bytes recovers the value:
`(x & 0xFF) | ((x >> 8) << 8) = x`. -/
theorem lo_hi_or (x : Nat) : (x &&& 0xFF) ||| ((x >>> 8) <<< 8) = x := by
  apply Nat.eq_of_testBit_eq
  intro i
  rw [Nat.testBit_lor, Nat.testBit_land, Nat.testBit_shiftLeft, Nat.testBit_shiftRight,
    testBit_mask255]
  rcases Nat.lt_or_ge i 8 with h | h
  · simp [h, Nat.not_le.mpr h]
  · have h8 : 8 + (i - 8) = i := by omega
    simp [h, Nat.not_lt_of_ge h, h8]

theorem and_ffff_of_lt {x : Nat} (h : x < 65536) : x &&& 0xFFFF = x := by
  apply Nat.eq_of_testBit_eq
  intro i
  rw [Nat.testBit_land, testBit_mask65535]
  rcases Nat.lt_or_ge i 16 with h2 | h2
  · simp [h2]
  · have h3 : x < 2 ^ i :=
      lt_of_lt_of_le (by omega : x < 2 ^ 16) (Nat.pow_le_pow_right (by norm_num) h2)
    simp [Nat.testBit_lt_two_pow h3]

/-! ### Structural lemmas about the demultiplexer -/

theorem findSync_none_mem {l : List Nat} (h : findSync l = none) : ∀ b ∈ l, b ≠ 0xAA := by
  induction l with
  | nil => intro b hb; cases hb
  | cons x r ih =>
    intro b hb
    by_cases hx : x = 0xAA
    · simp [findSync, hx] at h
    · rw [findSync, if_neg hx, Option.map_eq_none'] at h
      rcases List.mem_cons.mp hb with hb | hb
      · exact hb ▸ hx
      · exact ih h b hb

theorem findSync_take {l : List Nat} {i : Nat} (h : findSync l = some i) :
    ∀ b ∈ l.take i, b ≠ 0xAA := by
  induction l generalizing i with
  | nil => simp [findSync] at h
  | cons x r ih =>
    by_cases hx : x = 0xAA
    · rw [findSync, if_pos hx] at h
      cases h
      simp
    · rw [findSync, if_neg hx, Option.map_eq_some'] at h
      obtain ⟨j, hj, rfl⟩ := h
      intro b hb
      rcases List.mem_cons.mp (by simpa using hb) with hb | hb
      · exact hb ▸ hx
      · exact ih hj b hb

theorem findSync_prefix_aa {t : List Nat} (h : ∀ b ∈ t, b ≠ 0xAA) (r : List Nat) :
    findSync (t ++ 0xAA :: r) = some t.length := by
  induction t with
  | nil => simp [findSync]
  | cons x ts ih =>
    have hx : x ≠ 0xAA := h x (by simp)
    rw [List.cons_append, findSync, if_neg hx, ih (fun b hb => h b (by simp [hb]))]
    rfl

theorem emit_text_noAA {d : List Nat} (h : ∀ b ∈ d, b ≠ 0xAA) :
    emit_text_bytes d = if d = [] then [] else [Ev.text d] := by
  match d with
  | [] => rfl
  | [a] => rfl
  | a :: b :: rest =>
    have ha : a ≠ 0xAA := h a (by simp)
    rw [emit_text_bytes, if_neg (by simp [ha])]
    rfl

theorem textJoin_emit {d : List Nat} (h : ∀ b ∈ d, b ≠ 0xAA) :
    textJoin (emit_text_bytes d) = d := by
  rw [emit_text_noAA h]
  by_cases hd : d = [] <;> simp [hd, textJoin]

theorem plotBody_length (vs : List Nat) :
    ((vs.map (fun v => [(v &&& 0xFFFF) &&& 0xFF, (v &&& 0xFFFF) >>> 8])).flatten).length
      = 2 * vs.length := by
  induction vs with
  | nil => rfl
  | cons v vs ih => simp only [List.map_cons, List.flatten_cons, List.length_append,
      List.length_cons, List.length_nil, ih, List.length_map]; omega

theorem decodeU16_encode (vs tail : List Nat) :
    decodeU16 vs.length
      ((vs.map (fun v => [(v &&& 0xFFFF) &&& 0xFF, (v &&& 0xFFFF) >>> 8])).flatten ++ tail)
      = vs.map (· &&& 0xFFFF) := by
  induction vs with
  | nil => rfl
  | cons v vs ih =>
    simp only [List.map_cons, List.flatten_cons, List.length_cons, List.cons_append,
      List.append_assoc, List.nil_append]
    rw [decodeU16, lo_hi_or, ih]

theorem map_and_ffff {vs : List Nat} (h : ∀ v ∈ vs, v < 65536) :
    vs.map (· &&& 0xFFFF) = vs := by
  induction vs with
  | nil => rfl
  | cons v vs ih =>
    rw [List.map_cons, and_ffff_of_lt (h v (by simp)), ih (fun x hx => h x (by simp [hx]))]

theorem try_read_packet_plot_incomplete (vs : List Nat) (h1 : 1 ≤ vs.length) (h5 : vs.length ≤ 5)
    (k : Nat) (hk : k < 3 + 2 * vs.length) :
    try_read_packet ((encode_plot_packet vs).take k)
      = ([], (encode_plot_packet vs).take k, none) := by
  match k with
  | 0 => simp [try_read_packet, findSync]
  | 1 => simp [encode_plot_packet, try_read_packet, findSync, emit_text_bytes]
  | 2 =>
    simp [encode_plot_packet, try_read_packet, findSync, emit_text_bytes, try_read_plot_packet]
  | (m + 3) =>
    have hm : m < vs.length * 2 := by omega
    have hB := plotBody_length vs
    rw [encode_plot_packet]
    generalize hBe : (vs.map (fun v => [(v &&& 0xFFFF) &&& 0xFF, (v &&& 0xFFFF) >>> 8])).flatten = B at hB ⊢
    have hlen : (B.take m).length < vs.length * 2 := by
      rw [List.length_take]; omega
    simp [try_read_packet, findSync, emit_text_bytes, try_read_plot_packet, h1, h5, hlen]
    omega

theorem try_read_packet_plot_full (vs : List Nat) (h1 : 1 ≤ vs.length) (h5 : vs.length ≤ 5) :
    try_read_packet (encode_plot_packet vs)
      = ([], [], some (PacketP.plot (vs.map (· &&& 0xFFFF)))) := by
  have hb := plotBody_length vs
  have hdec := decodeU16_encode vs []
  rw [List.append_nil] at hdec
  rw [encode_plot_packet]
  generalize hBe : (vs.map (fun v => [(v &&& 0xFFFF) &&& 0xFF, (v &&& 0xFFFF) >>> 8])).flatten = B at hb hdec ⊢
  have hnlt : ¬ B.length < vs.length * 2 := by omega
  have hdrop : B.drop (vs.length * 2) = [] := by
    apply List.drop_eq_nil_of_le
    omega
  simp [try_read_packet, findSync, emit_text_bytes, try_read_plot_packet,
    h1, h5, hnlt, hdrop, hdec]

theorem processLoop_empty (fuel : Nat) (flag : Bool) :
    processLoop fuel ⟨[], flag⟩ = ([], ⟨[], flag⟩) := by
  cases fuel <;> simp [processLoop]

theorem processLoop_step_none {st : HandlerState} {evs : List Ev} {buf2 : List Nat}
    (h : st.buffer ≠ []) (ht : try_read_packet st.buffer = (evs, buf2, none)) (fuel : Nat) :
    processLoop (fuel + 1) st = (evs, { st with buffer := buf2 }) := by
  simp [processLoop, h, ht]

theorem processLoop_step_plot {st : HandlerState} {evs : List Ev} {buf2 vs : List Nat}
    (h : st.buffer ≠ []) (ht : try_read_packet st.buffer = (evs, buf2, some (PacketP.plot vs)))
    (fuel : Nat) :
    processLoop (fuel + 1) st =
      (evs ++ Ev.plot vs :: (processLoop fuel { st with buffer := buf2 }).1,
       (processLoop fuel { st with buffer := buf2 }).2) := by
  simp [processLoop, h, ht]

theorem processLoop_step_config_first {st : HandlerState} {evs : List Ev} {buf2 : List Nat}
    {names : List (List Nat)}
    (h : st.buffer ≠ []) (hf : st.config_received = false)
    (ht : try_read_packet st.buffer = (evs, buf2, some (PacketP.config names))) (fuel : Nat) :
    processLoop (fuel + 1) st =
      (evs ++ Ev.config names :: (processLoop fuel ⟨buf2, true⟩).1,
       (processLoop fuel ⟨buf2, true⟩).2) := by
  simp [processLoop, h, ht, hf]

theorem processLoop_step_config_again {st : HandlerState} {evs : List Ev} {buf2 : List Nat}
    {names : List (List Nat)}
    (h : st.buffer ≠ []) (hf : st.config_received = true)
    (ht : try_read_packet st.buffer = (evs, buf2, some (PacketP.config names))) (fuel : Nat) :
    processLoop (fuel + 1) st =
      (evs ++ (processLoop fuel { st with buffer := buf2 }).1,
       (processLoop fuel { st with buffer := buf2 }).2) := by
  simp [processLoop, h, ht, hf]

theorem process_data_ne (st : HandlerState) (chunk : List Nat) (h : chunk ≠ []) :
    process_data st chunk
      = processLoop (st.buffer.length + chunk.length + 1) { st with buffer := st.buffer ++ chunk } := by
  simp [process_data, h]

theorem encode_plot_length (vs : List Nat) :
    (encode_plot_packet vs).length = 3 + 2 * vs.length := by
  rw [encode_plot_packet]
  simp only [List.length_cons]
  rw [plotBody_length]
  omega

theorem process_data_plot_within (vs : List Nat) (h1 : 1 ≤ vs.length) (h5 : vs.length ≤ 5)
    (flag : Bool) (k k2 : Nat) (hk2 : k2 < 3 + 2 * vs.length) (chunk : List Nat)
    (hup : (encode_plot_packet vs).take k ++ chunk = (encode_plot_packet vs).take k2) :
    process_data ⟨(encode_plot_packet vs).take k, flag⟩ chunk
      = ([], ⟨(encode_plot_packet vs).take k2, flag⟩) := by
  by_cases hc : chunk = []
  · subst hc
    rw [List.append_nil] at hup
    simp [process_data, hup]
  · rw [process_data_ne _ _ hc]
    show processLoop _ ⟨(encode_plot_packet vs).take k ++ chunk, flag⟩ = _
    rw [hup]
    have hne : (encode_plot_packet vs).take k2 ≠ [] := by
      rw [← hup]; simp [hc]
    exact processLoop_step_none hne (try_read_packet_plot_incomplete vs h1 h5 k2 hk2) _

theorem process_data_plot_completes (vs : List Nat) (h1 : 1 ≤ vs.length) (h5 : vs.length ≤ 5)
    (flag : Bool) (k : Nat) (chunk : List Nat) (hc : chunk ≠ [])
    (hup : (encode_plot_packet vs).take k ++ chunk = encode_plot_packet vs) :
    process_data ⟨(encode_plot_packet vs).take k, flag⟩ chunk
      = ([Ev.plot (vs.map (· &&& 0xFFFF))], ⟨[], flag⟩) := by
  rw [process_data_ne _ _ hc]
  show processLoop _ ⟨(encode_plot_packet vs).take k ++ chunk, flag⟩ = _
  rw [hup]
  have hne : encode_plot_packet vs ≠ [] := by simp [encode_plot_packet]
  rw [processLoop_step_plot hne (try_read_packet_plot_full vs h1 h5)]
  simp [processLoop_empty]

theorem process_chunks_all_nil (cs : List (List Nat)) (st : HandlerState)
    (h : ∀ x ∈ cs, x = []) : process_chunks st cs = ([], st) := by
  induction cs generalizing st with
  | nil => rfl
  | cons c cs ih =>
    have hc : c = [] := h c (by simp)
    subst hc
    rw [process_chunks]
    simp [process_data, ih st (fun x hx => h x (by simp [hx]))]

theorem process_chunks_plot (vs : List Nat) (h1 : 1 ≤ vs.length) (h5 : vs.length ≤ 5)
    (flag : Bool) :
    ∀ (chunks : List (List Nat)) (k : Nat), k < 3 + 2 * vs.length →
    (encode_plot_packet vs).take k ++ chunks.flatten = encode_plot_packet vs →
    process_chunks ⟨(encode_plot_packet vs).take k, flag⟩ chunks
      = ([Ev.plot (vs.map (· &&& 0xFFFF))], ⟨[], flag⟩) := by
  intro chunks
  induction chunks with
  | nil =>
    intro k hk hup
    exfalso
    rw [List.flatten_nil, List.append_nil] at hup
    have hlen := congrArg List.length hup
    rw [List.length_take, encode_plot_length] at hlen
    omega
  | cons c cs ih =>
    intro k hk hup
    rw [List.flatten_cons, ← List.append_assoc] at hup
    have hkle : k ≤ (encode_plot_packet vs).length := by rw [encode_plot_length]; omega
    have htakelen : ((encode_plot_packet vs).take k).length = k := by
      rw [List.length_take]
      rw [encode_plot_length] at hkle ⊢
      omega
    have hA : ((encode_plot_packet vs).take k ++ c).length = k + c.length := by
      rw [List.length_append, htakelen]
    have hsplit : (encode_plot_packet vs).take (k + c.length)
        = (encode_plot_packet vs).take k ++ c := by
      conv_lhs => rw [← hup, ← hA]
      exact List.take_left _ _
    have hk2le : k + c.length ≤ (encode_plot_packet vs).length := by
      have hl := congrArg List.length hup
      rw [List.length_append, hA] at hl
      omega
    rcases Nat.lt_or_ge (k + c.length) (3 + 2 * vs.length) with hlt | hge
    · have hpd := process_data_plot_within vs h1 h5 flag k (k + c.length) hlt c hsplit.symm
      rw [process_chunks]
      simp only [hpd]
      have hih := ih (k + c.length) hlt (by rw [← hsplit] at hup; exact hup)
      simp [hih]
    · have heq : k + c.length = 3 + 2 * vs.length := by
        rw [encode_plot_length] at hk2le; omega
      have hcne : c ≠ [] := by
        intro h0
        subst h0
        simp at heq
        omega
      have htake_full : (encode_plot_packet vs).take (k + c.length) = encode_plot_packet vs := by
        apply List.take_of_length_le
        rw [encode_plot_length]
        omega
      have hupc : (encode_plot_packet vs).take k ++ c = encode_plot_packet vs := by
        rw [← hsplit, htake_full]
      have hpd := process_data_plot_completes vs h1 h5 flag k c hcne hupc
      have hflat : cs.flatten = [] := by
        rw [hupc] at hup
        exact List.append_right_eq_self.mp hup
      rw [process_chunks]
      simp only [hpd]
      rw [process_chunks_all_nil cs _ (List.flatten_eq_nil_iff.mp hflat)]
      simp

/-- C2 counterexample: the 8-byte stream `AA 01 09 AA 01 01 07 00` (a spurious
sync with an invalid count, followed by a valid telemetry packet) classifies
differently when fed in one `process_data` call (no output at all: the loop
stops right after dropping the spurious sync byte) than when fed one byte at
a time (a text run `01 09` followed by the telemetry event `[7]`). -/
theorem claim_C2_counterexample :
    (process_data ⟨[], false⟩ [0xAA, 0x01, 0x09, 0xAA, 0x01, 0x01, 0x07, 0x00]).1 = []
    ∧ (process_chunks ⟨[], false⟩
        [[0xAA], [0x01], [0x09], [0xAA], [0x01], [0x01], [0x07], [0x00]]).1
        = [Ev.text [0x01, 0x09], Ev.plot [7]]
    ∧ (process_data ⟨[], false⟩ [0xAA, 0x01, 0x09, 0xAA, 0x01, 0x01, 0x07, 0x00]).1
        ≠ (process_chunks ⟨[], false⟩
            [[0xAA], [0x01], [0x09], [0xAA], [0x01], [0x01], [0x07], [0x00]]).1 := by
  exact ⟨by decide, by decide, by decide⟩

/-- C2 (amended): chunk-boundary invariance holds for a complete telemetry
packet: for every count in 1..=5 and 16-bit values, feeding the encoded packet
to `process_data` in one call and feeding it split into arbitrary chunks at
any byte boundaries produce the identical classification — exactly one
telemetry event with the decoded values and an empty buffer.  (For general
byte sequences the invariance fails, because dropping a spurious sync byte
stops the extraction loop until the next call; see the counterexample.) -/
theorem claim_C2_amended (vs : List Nat) (h1 : 1 ≤ vs.length) (h5 : vs.length ≤ 5)
    (hv : ∀ v ∈ vs, v < 65536) (flag : Bool) (chunks : List (List Nat))
    (hj : chunks.flatten = encode_plot_packet vs) :
    process_chunks ⟨[], flag⟩ chunks = ([Ev.plot vs], ⟨[], flag⟩)
    ∧ process_data ⟨[], flag⟩ (encode_plot_packet vs) = ([Ev.plot vs], ⟨[], flag⟩) := by
  have hmask := map_and_ffff hv
  constructor
  · have h := process_chunks_plot vs h1 h5 flag chunks 0 (by omega) (by simpa using hj)
    rw [List.take_zero] at h
    rw [h, hmask]
  · have h := process_data_plot_completes vs h1 h5 flag 0 (encode_plot_packet vs)
      (by simp [encode_plot_packet]) (by simp)
    rw [List.take_zero] at h
    rw [h, hmask]

/-- Witness for C2 (amended), at the packet for values `[7]` split into three
chunks. -/
theorem claim_C2_witness :
    process_chunks ⟨[], false⟩ [[0xAA], [0x01, 0x01], [0x07, 0x00]]
      = ([Ev.plot [7]], ⟨[], false⟩) :=
  (claim_C2_amended [7] (by decide) (by decide) (by decide) false
    [[0xAA], [0x01, 0x01], [0x07, 0x00]] (by decide)).1

/-- C3: for every count in 1..=5 and every list of that many 16-bit values,
encoding the telemetry packet as the device-side encoder does
(`[0xAA][0x01][count]` + little-endian uint16 values) and feeding the bytes
to the demultiplexer produces exactly one telemetry event whose payload is
the original value list (and nothing else), leaving the buffer empty. -/
theorem claim_C3 (values : List Nat) (h1 : 1 ≤ values.length) (h5 : values.length ≤ 5)
    (hv : ∀ v ∈ values, v < 65536) (flag : Bool) :
    process_data ⟨[], flag⟩ (encode_plot_packet values)
      = ([Ev.plot values], ⟨[], flag⟩) := by
  have h := process_data_plot_completes values h1 h5 flag 0 (encode_plot_packet values)
    (by simp [encode_plot_packet]) (by simp)
  rw [List.take_zero] at h
  rw [h, map_and_ffff hv]

/-- Witness for C3 at the two-value packet for `[300, 65535]`. -/
theorem claim_C3_witness :
    process_data ⟨[], false⟩ (encode_plot_packet [300, 65535])
      = ([Ev.plot [300, 65535]], ⟨[], false⟩) :=
  claim_C3 [300, 65535] (by decide) (by decide) (by decide) false

theorem read_name_fields_full (names : List (List Nat)) (tail : List Nat) :
    read_name_fields names.length ((names.map (fun nm => nm.length :: nm)).flatten ++ tail)
      = some (names, tail) := by
  induction names with
  | nil => rfl
  | cons nm ns ih =>
    simp only [List.map_cons, List.flatten_cons, List.length_cons, List.cons_append,
      List.append_assoc]
    rw [read_name_fields]
    have hnlt : ¬ (nm ++ ((ns.map (fun nm => nm.length :: nm)).flatten ++ tail)).length
        < nm.length := by
      rw [List.length_append]; omega
    rw [if_neg hnlt, List.drop_left, ih, List.take_left]

theorem try_read_packet_config_full (names : List (List Nat)) (h1 : 1 ≤ names.length)
    (h5 : names.length ≤ 5) :
    try_read_packet (encode_config_packet names) = ([], [], some (PacketP.config names)) := by
  have hrf := read_name_fields_full names []
  rw [List.append_nil] at hrf
  simp [encode_config_packet, try_read_packet, findSync, emit_text_bytes,
    try_read_config_packet, h1, h5, hrf]

/-- C5: config suppression.  Starting from a reset config state, a complete
config packet produces exactly one config event and sets the flag; feeding
the identical packet again is parsed (its bytes are consumed, leaving the
buffer empty) but produces no event; after `reset_config_state`, the next
config packet produces a config event again. -/
theorem claim_C5 (names : List (List Nat)) (h1 : 1 ≤ names.length) (h5 : names.length ≤ 5)
    (hw : ∀ nm ∈ names, nm.length ≤ 255) :
    process_data ⟨[], false⟩ (encode_config_packet names) = ([Ev.config names], ⟨[], true⟩)
    ∧ process_data ⟨[], true⟩ (encode_config_packet names) = ([], ⟨[], true⟩)
    ∧ process_data (reset_config_state ⟨[], true⟩) (encode_config_packet names)
        = ([Ev.config names], ⟨[], true⟩) := by
  have hne : encode_config_packet names ≠ [] := by simp [encode_config_packet]
  have ht := try_read_packet_config_full names h1 h5
  have hfirst : process_data ⟨[], false⟩ (encode_config_packet names)
      = ([Ev.config names], ⟨[], true⟩) := by
    rw [process_data_ne _ _ hne]
    show processLoop _ ⟨[] ++ encode_config_packet names, false⟩ = _
    rw [List.nil_append]
    rw [processLoop_step_config_first hne rfl ht]
    simp [processLoop_empty]
  refine ⟨hfirst, ?_, ?_⟩
  · rw [process_data_ne _ _ hne]
    show processLoop _ ⟨[] ++ encode_config_packet names, true⟩ = _
    rw [List.nil_append]
    rw [processLoop_step_config_again hne rfl ht]
    simp [processLoop_empty]
  · exact hfirst

/-- Witness for C5 at the one-channel config packet with name bytes `"ab"`. -/
theorem claim_C5_witness :
    process_data ⟨[], false⟩ (encode_config_packet [[0x61, 0x62]])
        = ([Ev.config [[0x61, 0x62]]], ⟨[], true⟩)
    ∧ process_data ⟨[], true⟩ (encode_config_packet [[0x61, 0x62]]) = ([], ⟨[], true⟩)
    ∧ process_data (reset_config_state ⟨[], true⟩) (encode_config_packet [[0x61, 0x62]])
        = ([Ev.config [[0x61, 0x62]]], ⟨[], true⟩) :=
  claim_C5 [[0x61, 0x62]] (by decide) (by decide) (by decide)

theorem try_read_packet_spurious (t1 : List Nat) (h1 : ∀ b ∈ t1, b ≠ 0xAA)
    (x : Nat) (r2 : List Nat)
    (hbad : (x ≠ 0x01 ∧ x ≠ 0x02)
      ∨ ∃ y r3, r2 = y :: r3 ∧ (x = 0x01 ∨ x = 0x02) ∧ ¬(1 ≤ y ∧ y ≤ 5)) :
    try_read_packet (t1 ++ 0xAA :: x :: r2) = (emit_text_bytes t1, x :: r2, none) := by
  rw [try_read_packet, findSync_prefix_aa h1]
  rcases hbad with ⟨hx1, hx2⟩ | ⟨y, r3, hr2, hx, hy⟩
  · simp [List.take_left, List.drop_left, hx1, hx2]
  · subst hr2
    rcases hx with hx | hx <;>
      simp [List.take_left, List.drop_left, hx, try_read_plot_packet,
        try_read_config_packet, hy]

theorem process_data_spurious (t1 : List Nat) (h1 : ∀ b ∈ t1, b ≠ 0xAA)
    (x : Nat) (r2 : List Nat) (flag : Bool)
    (hbad : (x ≠ 0x01 ∧ x ≠ 0x02)
      ∨ ∃ y r3, r2 = y :: r3 ∧ (x = 0x01 ∨ x = 0x02) ∧ ¬(1 ≤ y ∧ y ≤ 5)) :
    process_data ⟨[], flag⟩ (t1 ++ 0xAA :: x :: r2)
      = (emit_text_bytes t1, ⟨x :: r2, flag⟩) := by
  have hc : t1 ++ 0xAA :: x :: r2 ≠ [] := by simp
  rw [process_data_ne _ _ hc]
  show processLoop _ ⟨[] ++ (t1 ++ 0xAA :: x :: r2), flag⟩ = _
  rw [List.nil_append]
  exact processLoop_step_none (by simp) (try_read_packet_spurious t1 h1 x r2 hbad) _

/-- C4 counterexample: the 3-byte stream `41 AA FF` (text `A`, a spurious sync
byte, then a byte that is not a valid type).  After the whole stream has been
processed, only `41` has been emitted as text; `FF` stays in the buffer
awaiting more input and is never emitted (a further call with no new input
makes no progress), so the handler does not eventually emit all non-sync
bytes as the claim states. -/
theorem claim_C4_counterexample :
    textJoin (process_data ⟨[], false⟩ [0x41, 0xAA, 0xFF]).1 = [0x41]
    ∧ textJoin (process_data ⟨[], false⟩ [0x41, 0xAA, 0xFF]).1 ≠ [0x41, 0xFF]
    ∧ (process_data ⟨[], false⟩ [0x41, 0xAA, 0xFF]).2.buffer = [0xFF]
    ∧ process_data (process_data ⟨[], false⟩ [0x41, 0xAA, 0xFF]).2 []
        = ([], (process_data ⟨[], false⟩ [0x41, 0xAA, 0xFF]).2) := by
  exact ⟨by decide, by decide, by decide, by decide⟩

/-- C4 (amended): for a text stream `t1 ++ [0xAA] ++ rest` where `t1` is
sync-free and the bytes after the sync visibly fail to form a valid header
(unknown type byte, or a count byte outside 1..=5), one `process_data` call
emits exactly the text before the sync, drops exactly the spurious sync
byte, and retains the remaining bytes unchanged in the buffer (they are not
yet emitted — they are flushed as text only once a later sync byte follows
them or the buffer exceeds the 1024-byte threshold).  In particular no byte
other than the sync byte is lost and none is duplicated: the emitted text
plus the retained buffer equals the stream minus the sync byte. -/
theorem claim_C4_amended (t1 : List Nat) (h1 : ∀ b ∈ t1, b ≠ 0xAA)
    (x : Nat) (r2 : List Nat) (flag : Bool)
    (hbad : (x ≠ 0x01 ∧ x ≠ 0x02)
      ∨ ∃ y r3, r2 = y :: r3 ∧ (x = 0x01 ∨ x = 0x02) ∧ ¬(1 ≤ y ∧ y ≤ 5)) :
    process_data ⟨[], flag⟩ (t1 ++ 0xAA :: x :: r2)
      = (emit_text_bytes t1, ⟨x :: r2, flag⟩)
    ∧ textJoin (emit_text_bytes t1) ++ x :: r2 = t1 ++ x :: r2 := by
  refine ⟨process_data_spurious t1 h1 x r2 flag hbad, ?_⟩
  rw [textJoin_emit h1]

/-- Witness for C4 (amended) at `t1 = [0x41]`, type byte `0xFF`, tail `[0x42]`. -/
theorem claim_C4_witness :
    process_data ⟨[], false⟩ ([0x41] ++ 0xAA :: 0xFF :: [0x42])
      = (emit_text_bytes [0x41], ⟨0xFF :: [0x42], false⟩)
    ∧ textJoin (emit_text_bytes [0x41]) ++ 0xFF :: [0x42] = [0x41] ++ 0xFF :: [0x42] :=
  claim_C4_amended [0x41] (by decide) 0xFF [0x42] false (Or.inl (by decide))

/-! ### C10: emitted text runs never contain the sync byte -/

/-- The invariant each emitted event satisfies: text runs are sync-free and
the suppression branch never fires. -/
def ev_ok : Ev → Prop
  | Ev.text t => ¬ 0xAA ∈ t
  | Ev.suppressed _ => False
  | _ => True

theorem emit_text_ok {d : List Nat} (hd : ∀ b ∈ d, b ≠ 0xAA) :
    ∀ e ∈ emit_text_bytes d, ev_ok e := by
  rw [emit_text_noAA hd]
  intro e he
  by_cases h : d = []
  · simp [h] at he
  · rw [if_neg h] at he
    simp at he
    subst he
    show ¬ 0xAA ∈ d
    intro hmem
    exact hd 0xAA hmem rfl

theorem try_read_packet_events (buf : List Nat) :
    ∃ d, (∀ b ∈ d, b ≠ 0xAA) ∧ (try_read_packet buf).1 = emit_text_bytes d := by
  rcases hfs : findSync buf with _ | i
  · by_cases hl : 1024 < buf.length
    · exact ⟨buf, findSync_none_mem hfs, by simp [try_read_packet, hfs, hl]⟩
    · exact ⟨[], by simp, by simp [try_read_packet, hfs, hl, emit_text_bytes]⟩
  · refine ⟨buf.take i, findSync_take hfs, ?_⟩
    simp only [try_read_packet, hfs]
    cases hdrop : buf.drop i with
    | nil => rfl
    | cons s tl =>
      cases tl with
      | nil => rfl
      | cons t r2 =>
        by_cases ht1 : t = 0x01
        · simp [ht1]
        · by_cases ht2 : t = 0x02
          · simp [ht1, ht2]
          · simp [ht1, ht2]

theorem processLoop_ev : ∀ (fuel : Nat) (st : HandlerState),
    ∀ e ∈ (processLoop fuel st).1, ev_ok e := by
  intro fuel
  induction fuel with
  | zero => intro st e he; simp [processLoop] at he
  | succ n ih =>
    intro st e he
    by_cases hb : st.buffer = []
    · simp [processLoop, hb] at he
    · obtain ⟨d, hd, hevs0⟩ := try_read_packet_events st.buffer
      rcases htr : try_read_packet st.buffer with ⟨evs, buf2, pkt⟩
      have hevs : evs = emit_text_bytes d := by rw [htr] at hevs0; exact hevs0
      cases pkt with
      | none =>
        rw [processLoop_step_none hb htr] at he
        exact emit_text_ok hd e (hevs ▸ he)
      | some p =>
        cases p with
        | plot vs =>
          rw [processLoop_step_plot hb htr] at he
          simp only [List.mem_append, List.mem_cons] at he
          rcases he with he | he | he
          · exact emit_text_ok hd e (hevs ▸ he)
          · subst he; trivial
          · exact ih _ e he
        | config names =>
          by_cases hcf : st.config_received = true
          · rw [processLoop_step_config_again hb hcf htr] at he
            simp only [List.mem_append] at he
            rcases he with he | he
            · exact emit_text_ok hd e (hevs ▸ he)
            · exact ih _ e he
          · have hcf2 : st.config_received = false := by
              simpa using hcf
            rw [processLoop_step_config_first hb hcf2 htr] at he
            simp only [List.mem_append, List.mem_cons] at he
            rcases he with he | he | he
            · exact emit_text_ok hd e (hevs ▸ he)
            · subst he; trivial
            · exact ih _ e he

/-- C10: on every path from `process_data` — from an arbitrary buffer and
config state, for an arbitrary chunk — every emitted text run is free of the
sync byte 0xAA, and the header-suppression branch of `_emit_text_bytes`
(first byte 0xAA, second 0x01/0x02) never fires: no `suppressed` event is
ever produced, so that branch is unreachable from `process_data`. -/
theorem claim_C10 (buf : List Nat) (flag : Bool) (chunk : List Nat) :
    (∀ t, Ev.text t ∈ (process_data ⟨buf, flag⟩ chunk).1 → ¬ 0xAA ∈ t)
    ∧ (∀ d, Ev.suppressed d ∉ (process_data ⟨buf, flag⟩ chunk).1) := by
  constructor
  · intro t ht
    by_cases hc : chunk = []
    · simp [process_data, hc] at ht
    · rw [process_data_ne _ _ hc] at ht
      exact processLoop_ev _ _ _ ht
  · intro d hd
    by_cases hc : chunk = []
    · simp [process_data, hc] at hd
    · rw [process_data_ne _ _ hc] at hd
      exact processLoop_ev _ _ _ hd

/-- Witness for C10 at the buffer/chunk pair emitting the text run `[0x41]`. -/
theorem claim_C10_witness :
    ¬ (0xAA ∈ [0x41])
    ∧ Ev.suppressed [0xAA, 0x01] ∉ (process_data ⟨[], false⟩ [0x41, 0xAA]).1 :=
  ⟨(claim_C10 [] false [0x41, 0xAA]).1 [0x41] (by decide),
   (claim_C10 [] false [0x41, 0xAA]).2 [0xAA, 0x01]⟩

/-! ### Substring facts for the `read_until` model -/

theorem isPre_refl {α : Type} [DecidableEq α] (l : List α) : isPre l l = true := by
  induction l with
  | nil => rfl
  | cons a as ih => simp [isPre, ih]

theorem isPre_append_right {α : Type} [DecidableEq α] {p l : List α} (m : List α)
    (h : isPre p l = true) : isPre p (l ++ m) = true := by
  induction p generalizing l with
  | nil => rfl
  | cons a as ih =>
    cases l with
    | nil => simp [isPre] at h
    | cons b bs =>
      rw [isPre] at h
      by_cases hab : a = b
      · rw [List.cons_append, isPre, if_pos hab]
        exact ih (by rwa [if_pos hab] at h)
      · rw [if_neg hab] at h
        cases h

theorem isPre_exists_append {α : Type} [DecidableEq α] {p l : List α}
    (h : isPre p l = true) : ∃ u, l = p ++ u := by
  induction p generalizing l with
  | nil => exact ⟨l, rfl⟩
  | cons a as ih =>
    cases l with
    | nil => simp [isPre] at h
    | cons b bs =>
      rw [isPre] at h
      by_cases hab : a = b
      · obtain ⟨u, hu⟩ := ih (by rwa [if_pos hab] at h)
        exact ⟨u, by rw [hu, hab]; rfl⟩
      · rw [if_neg hab] at h
        cases h

theorem strFind_isSome_of_drop {α : Type} [DecidableEq α] {term s : List α} {i : Nat}
    (h : isPre term (s.drop i) = true) : (strFind term s).isSome = true := by
  induction s generalizing i with
  | nil =>
    rw [List.drop_nil] at h
    simp [strFind, h]
  | cons c r ih =>
    cases i with
    | zero =>
      rw [List.drop_zero] at h
      simp [strFind, h]
    | succ j =>
      rw [List.drop_succ_cons] at h
      rw [strFind]
      by_cases hp : isPre term (c :: r) = true
      · simp [hp]
      · have hp2 : isPre term (c :: r) = false := by
          revert hp; cases isPre term (c :: r) <;> simp
        rw [hp2]
        simp only [Bool.false_eq_true, if_false]
        rw [show (Option.map (fun x => x + 1) (strFind term r)).isSome = (strFind term r).isSome from Option.isSome_map]
        exact ih h

theorem strFind_exists_of_isSome {α : Type} [DecidableEq α] {term s : List α}
    (h : (strFind term s).isSome = true) : ∃ i, isPre term (s.drop i) = true := by
  induction s with
  | nil =>
    rw [strFind] at h
    by_cases hp : isPre term ([] : List α) = true
    · exact ⟨0, hp⟩
    · simp [hp] at h
  | cons c r ih =>
    rw [strFind] at h
    by_cases hp : isPre term (c :: r) = true
    · exact ⟨0, hp⟩
    · have hp2 : isPre term (c :: r) = false := by
        revert hp; cases isPre term (c :: r) <;> simp
      rw [hp2] at h
      simp only [Bool.false_eq_true, if_false] at h
      rw [show (Option.map (fun x => x + 1) (strFind term r)).isSome = (strFind term r).isSome from Option.isSome_map] at h
      obtain ⟨i, hi⟩ := ih h
      exact ⟨i + 1, by rwa [List.drop_succ_cons]⟩

theorem containsB_of_endsWith {α : Type} [DecidableEq α] {s term : List α}
    (h : endsWithB s term = true) : containsB s term = true := by
  rw [endsWithB] at h
  obtain ⟨u, hu⟩ := isPre_exists_append h
  have hs : s = u.reverse ++ term := by
    have := congrArg List.reverse hu
    rwa [List.reverse_reverse, List.reverse_append, List.reverse_reverse] at this
  apply strFind_isSome_of_drop
  rw [hs, List.drop_left]
  exact isPre_refl term

theorem containsB_append_right {α : Type} [DecidableEq α] {a term : List α} (b : List α)
    (h : containsB a term = true) : containsB (a ++ b) term = true := by
  obtain ⟨i, hi⟩ := strFind_exists_of_isSome h
  by_cases hle : i ≤ a.length
  · apply strFind_isSome_of_drop
    rw [List.drop_append_of_le_length hle]
    exact isPre_append_right b hi
  · have hnil : a.drop i = [] := List.drop_eq_nil_of_le (by omega)
    rw [hnil] at hi
    obtain ⟨u, hu⟩ := isPre_exists_append hi
    have : term = [] := by
      cases term with
      | nil => rfl
      | cons x xs => simp at hu
    subst this
    exact strFind_isSome_of_drop (i := 0) rfl

/-! ### DeviceManager.read_until and CodeRunner.run_code
(src/src/worker/device_manager.py, src/src/worker/code_runner.py) -/

/-- `DeviceManager.read_until`: read one byte at a time, stopping as soon as
the accumulated buffer ends with the terminator.  The timeout is modelled by
the scripted stream running out: a device that never sends the terminator
yields everything it sent.  Returns (bytes read, bytes left unread). -/
def read_until (term : List Nat) : List Nat → List Nat → List Nat × List Nat
  | acc, [] => (acc, [])
  | acc, b :: rest =>
    if endsWithB (acc ++ [b]) term then (acc ++ [b], rest)
    else read_until term (acc ++ [b]) rest

/-- The result of one `CodeRunner.run_code` invocation against a scripted
device: the returned flag, the bytes written to the transport, and the split
of the device's output stream into bytes read and bytes left unread. -/
structure RunResult where
  success : Bool
  written : List Nat
  consumed : List Nat
  remaining : List Nat
deriving DecidableEq

/-- `CodeRunner.run_code`: write the UTF-8 code bytes then `0x04`, read until
the token `OK` (timeout ~2s), return `True` iff `OK` occurred in the
response.  No further read happens.  The transport model never raises, so
the except-branch (emit error, return `False`) has no analogue. -/
def run_code (code : List Nat) (stream : List Nat) : RunResult :=
  let r := read_until [0x4F, 0x4B] [] stream
  { success := containsB r.1 [0x4F, 0x4B]
    written := code ++ [0x04]
    consumed := r.1
    remaining := r.2 }

/-- Modelled from the spec: the Command Executor `run` of spec section 4.2,
which after finding the `OK` acknowledgement reads on until the paired marker
`0x04 0x04` (timeout ~5s) and returns all bytes read as the successful
outcome.  Used only to compare against `run_code` as the source implements
it. -/
def run_spec_model (code : List Nat) (stream : List Nat) :
    Option (List Nat) × List Nat :=
  let r := read_until [0x4F, 0x4B] [] stream
  if containsB r.1 [0x4F, 0x4B] then
    let r2 := read_until [0x04, 0x04] [] r.2
    (some r2.1, r2.2)
  else (none, r.2)

theorem read_until_token (pre post acc : List Nat)
    (h : containsB (acc ++ pre) [0x4F, 0x4B] = false) :
    read_until [0x4F, 0x4B] acc (pre ++ 0x4F :: 0x4B :: post)
      = (acc ++ pre ++ [0x4F, 0x4B], post) := by
  induction pre generalizing acc with
  | nil =>
    rw [List.nil_append, read_until]
    have h1 : endsWithB (acc ++ [0x4F]) [0x4F, 0x4B] = false := by
      simp [endsWithB, List.reverse_append, isPre]
    rw [if_neg (by simp [h1]), read_until]
    have h2 : endsWithB ((acc ++ [0x4F]) ++ [0x4B]) [0x4F, 0x4B] = true := by
      simp [endsWithB, List.reverse_append, isPre]
    rw [if_pos h2]
    simp
  | cons x pre ih =>
    rw [List.cons_append, read_until]
    have hnm : endsWithB (acc ++ [x]) [0x4F, 0x4B] = false := by
      by_contra hc
      have hc2 : endsWithB (acc ++ [x]) [0x4F, 0x4B] = true := by
        revert hc
        cases endsWithB (acc ++ [x]) [0x4F, 0x4B] <;> simp
      have := containsB_append_right pre (containsB_of_endsWith hc2)
      rw [List.append_assoc] at this
      simp only [List.singleton_append] at this
      rw [this] at h
      cases h
    rw [if_neg (by simp [hnm])]
    have hih := ih (acc ++ [x]) (by rwa [List.append_assoc, List.singleton_append])
    rw [hih]
    simp

theorem read_until_no_token (stream acc : List Nat)
    (h : containsB (acc ++ stream) [0x4F, 0x4B] = false) :
    read_until [0x4F, 0x4B] acc stream = (acc ++ stream, []) := by
  induction stream generalizing acc with
  | nil => simp [read_until]
  | cons b rest ih =>
    rw [read_until]
    have hnm : endsWithB (acc ++ [b]) [0x4F, 0x4B] = false := by
      by_contra hc
      have hc2 : endsWithB (acc ++ [b]) [0x4F, 0x4B] = true := by
        revert hc
        cases endsWithB (acc ++ [b]) [0x4F, 0x4B] <;> simp
      have := containsB_append_right rest (containsB_of_endsWith hc2)
      rw [List.append_assoc] at this
      simp only [List.singleton_append] at this
      rw [this] at h
      cases h
    rw [if_neg (by simp [hnm])]
    have hih := ih (acc ++ [b]) (by rwa [List.append_assoc, List.singleton_append])
    rw [hih]
    simp

/-- C1 counterexample: on the healthy-device response to `print(1)`
(`OK`, then `"1\r\n"`, the paired marker `0x04 0x04` and the prompt `>`),
`run_code` stops reading right after the `OK` token: it consumes only
`[0x4F, 0x4B]`, so the bytes it reads contain no `0x31` and do not extend
through `0x04 0x04` — the byte `0x31` is left unread on the transport — and
the function returns only the flag `true`, not the captured bytes.  The
spec-modelled `run` (read on until `0x04 0x04`, return the bytes) would have
captured `0x31`, exhibiting the divergence. -/
theorem claim_C1_counterexample :
    (run_code (strBytes "print(1)\n")
        [0x4F, 0x4B, 0x31, 0x0D, 0x0A, 0x04, 0x04, 0x3E]).consumed = [0x4F, 0x4B]
    ∧ ¬ 0x31 ∈ (run_code (strBytes "print(1)\n")
        [0x4F, 0x4B, 0x31, 0x0D, 0x0A, 0x04, 0x04, 0x3E]).consumed
    ∧ endsWithB (run_code (strBytes "print(1)\n")
        [0x4F, 0x4B, 0x31, 0x0D, 0x0A, 0x04, 0x04, 0x3E]).consumed [0x04, 0x04] = false
    ∧ (run_code (strBytes "print(1)\n")
        [0x4F, 0x4B, 0x31, 0x0D, 0x0A, 0x04, 0x04, 0x3E]).remaining
        = [0x31, 0x0D, 0x0A, 0x04, 0x04, 0x3E]
    ∧ (run_code (strBytes "print(1)\n")
        [0x4F, 0x4B, 0x31, 0x0D, 0x0A, 0x04, 0x04, 0x3E]).success = true
    ∧ (run_spec_model (strBytes "print(1)\n")
        [0x4F, 0x4B, 0x31, 0x0D, 0x0A, 0x04, 0x04, 0x3E]).1
        = some [0x31, 0x0D, 0x0A, 0x04, 0x04]
    ∧ 0x31 ∈ [0x31, 0x0D, 0x0A, 0x04, 0x04] := by
  exact ⟨by decide, by decide, by decide, by decide, by decide, by decide, by decide⟩

/-- C1 (amended): `run_code` sends the code followed by `0x04` and reads only
until the 2-byte token `OK`, returning just a success Boolean: on a stream
`pre ++ OK ++ post` with no earlier `OK`, it returns `true` having consumed
exactly `pre ++ OK` and leaving `post` (the program output, later drained by
the background monitor) unread; on a stream with no `OK` at all it consumes
everything, leaves nothing, and returns `false`.  It never reads on until
`0x04 0x04` and never returns captured output bytes — that pattern lives in
the file operations of `DeviceWorker`, not in `run_code`. -/
theorem claim_C1_amended (code pre post : List Nat)
    (hpre : containsB pre [0x4F, 0x4B] = false) :
    run_code code (pre ++ 0x4F :: 0x4B :: post)
      = { success := true, written := code ++ [0x04],
          consumed := pre ++ [0x4F, 0x4B], remaining := post }
    ∧ (∀ stream, containsB stream [0x4F, 0x4B] = false →
        run_code code stream
          = { success := false, written := code ++ [0x04],
              consumed := stream, remaining := [] }) := by
  constructor
  · have hru := read_until_token pre post [] (by simpa using hpre)
    rw [List.nil_append] at hru
    have hok : containsB (pre ++ [0x4F, 0x4B]) [0x4F, 0x4B] = true := by
      apply containsB_of_endsWith
      simp [endsWithB, List.reverse_append, isPre]
    rw [run_code]
    rw [hru]
    simp [hok]
  · intro stream hs
    have hru := read_until_no_token stream [] (by simpa using hs)
    rw [List.nil_append] at hru
    rw [run_code, hru]
    simp [hs]

/-- Witness for C1 (amended): a prompt byte before `OK`, one output byte
after it; and a never-acknowledging stream. -/
theorem claim_C1_witness :
    run_code [0x70] ([0x3E] ++ 0x4F :: 0x4B :: [0x31])
      = { success := true, written := [0x70] ++ [0x04],
          consumed := [0x3E] ++ [0x4F, 0x4B], remaining := [0x31] }
    ∧ run_code [0x70] [0x41, 0x42]
      = { success := false, written := [0x70] ++ [0x04],
          consumed := [0x41, 0x42], remaining := [] } :=
  ⟨(claim_C1_amended [0x70] [0x3E] [0x31] (by decide)).1,
   (claim_C1_amended [0x70] [0x3E] [0x31] (by decide)).2 [0x41, 0x42] (by decide)⟩

/-! ### Transport action traces (DeviceManager / CodeRunner control paths) -/

/-- One observable transport interaction: a write, an input-buffer clear, a
sleep (milliseconds), or a read returning the scripted response bytes. -/
inductive Act where
  | write (bs : List Nat)
  | clear_input
  | sleep_ms (ms : Nat)
  | read (resp : List Nat)
deriving DecidableEq

def raw_repl_tok : List Nat := strBytes "raw REPL"

/-- The actions of one attempt of `DeviceManager._enter_raw_mode`: three
interrupts (`0x03`) with 50 ms pauses, clear the input buffer, a 100 ms
pause, the raw-REPL entry byte `0x01`, then the read that waits for the
banner (timeout ~2s), returning the scripted response. -/
def raw_attempt_acts (resp : List Nat) : List Act :=
  [Act.write [0x03], Act.sleep_ms 50, Act.write [0x03], Act.sleep_ms 50,
   Act.write [0x03], Act.sleep_ms 50, Act.clear_input, Act.sleep_ms 100,
   Act.write [0x01], Act.read resp]

/-- The retry loop of `DeviceManager._enter_raw_mode`, driven by a script of
read responses (entry `i` is what the transport returns for the `i`-th read;
an exhausted script returns no bytes, i.e. a pure timeout).  The first
argument counts the remaining attempts (started at 3).  On a response
containing `raw REPL` the prompt `>` is read and the loop reports success;
otherwise it pauses 500 ms between attempts and reports failure after the
last.  The transport model never raises, so the except-branch has no
analogue.  Returns (success, performed actions). -/
def enter_raw_go : Nat → List (List Nat) → Bool × List Act
  | 0, _ => (false, [])
  | n + 1, script =>
    let resp := script.headD []
    let rest := script.tail
    if containsB resp raw_repl_tok then
      (true, raw_attempt_acts resp ++ [Act.read (rest.headD [])])
    else
      let pause := if 1 < n + 1 then [Act.sleep_ms 500] else []
      let r := enter_raw_go n rest
      (r.1, raw_attempt_acts resp ++ pause ++ r.2)

/-- `DeviceManager._enter_raw_mode` makes up to 3 attempts. -/
def enter_raw_mode (script : List (List Nat)) : Bool × List Act :=
  enter_raw_go 3 script

/-- C9: against a device that never returns the raw-REPL banner,
`_enter_raw_mode` performs exactly 3 attempts — each sending the interrupt
byte 3 times, clearing the input buffer, sending the raw-REPL entry byte
`0x01` and waiting for the banner — with a ~0.5 s pause between consecutive
attempts (and none after the last), and then returns failure. -/
theorem claim_C9 (r0 r1 r2 : List Nat)
    (h0 : containsB r0 raw_repl_tok = false)
    (h1 : containsB r1 raw_repl_tok = false)
    (h2 : containsB r2 raw_repl_tok = false) :
    enter_raw_mode [r0, r1, r2]
      = (false,
         raw_attempt_acts r0 ++ [Act.sleep_ms 500]
           ++ (raw_attempt_acts r1 ++ [Act.sleep_ms 500]
           ++ raw_attempt_acts r2)) := by
  rw [enter_raw_mode]
  rw [show (3 : Nat) = 2 + 1 from rfl, enter_raw_go]
  simp only [List.headD_cons, List.tail_cons, h0, Bool.false_eq_true, if_false]
  rw [show (2 : Nat) = 1 + 1 from rfl, enter_raw_go]
  simp only [List.headD_cons, List.tail_cons, h1, Bool.false_eq_true, if_false]
  rw [show (1 : Nat) = 0 + 1 from rfl, enter_raw_go]
  simp only [List.headD_cons, List.tail_cons, h2, Bool.false_eq_true, if_false]
  simp [enter_raw_go, List.append_assoc]

/-- Witness for C9: three timeout responses (empty, a prompt, garbage), none
containing the banner. -/
theorem claim_C9_witness :
    enter_raw_mode [[], [0x3E], [0x41, 0x42]]
      = (false,
         raw_attempt_acts [] ++ [Act.sleep_ms 500]
           ++ (raw_attempt_acts [0x3E] ++ [Act.sleep_ms 500]
           ++ raw_attempt_acts [0x41, 0x42])) :=
  claim_C9 [] [0x3E] [0x41, 0x42] (by decide) (by decide) (by decide)

/-! ### CodeRunner.stop (src/src/worker/code_runner.py) -/

/-- The session's transport handle as `stop` sees it: the open flag and the
script of read responses. -/
structure SerialPort where
  is_open : Bool
  script : List (List Nat)
deriving DecidableEq

/-- `CodeRunner.stop`: if the transport handle is absent or the port is not
open, return `None` immediately (performing no transport action at all).
Otherwise, holding the session lock: alternate Ctrl+C (`0x03`) and Ctrl+D
(`0x04`) three times with 50 ms pauses, clear the input buffer, send a final
`0x04` and pause 500 ms, send `0x01` and read for the raw-REPL banner; if
the banner is absent, run one corrective cycle (`0x02`, 100 ms pause,
`0x01`, read again) before returning `Some false`; on success drain the
prompt with one more read and return `Some true`.  The transport model never
raises, so the except-branches (`None` on `SerialException`, `False`
otherwise) have no analogue.  Returns (result, performed actions). -/
def stop (serial : Option SerialPort) : Option Bool × List Act :=
  match serial with
  | none => (none, [])
  | some sp =>
    if sp.is_open = false then (none, [])
    else
      let pre : List Act :=
        [Act.write [0x03], Act.sleep_ms 50, Act.write [0x04], Act.sleep_ms 50,
         Act.write [0x03], Act.sleep_ms 50, Act.write [0x04], Act.sleep_ms 50,
         Act.write [0x03], Act.sleep_ms 50, Act.write [0x04], Act.sleep_ms 50,
         Act.clear_input,
         Act.write [0x04], Act.sleep_ms 500,
         Act.write [0x01]]
      let resp := sp.script.headD []
      let rest := sp.script.tail
      if containsB resp raw_repl_tok then
        (some true, pre ++ [Act.read resp, Act.read (rest.headD [])])
      else
        let retry : List Act := [Act.write [0x02], Act.sleep_ms 100, Act.write [0x01]]
        let resp2 := rest.headD []
        let rest2 := rest.tail
        if containsB resp2 raw_repl_tok then
          (some true, pre ++ [Act.read resp] ++ retry
            ++ [Act.read resp2, Act.read (rest2.headD [])])
        else
          (some false, pre ++ [Act.read resp] ++ retry ++ [Act.read resp2])

/-- C8: when the session's transport handle is absent (`None`) or the port
is not open, `stop` returns `None` immediately and performs no transport
action whatsoever — in particular no write. -/
theorem claim_C8 (serial : Option SerialPort)
    (h : serial.all (fun sp => !sp.is_open) = true) :
    stop serial = (none, []) := by
  match serial with
  | none => rfl
  | some sp =>
    have hopen : sp.is_open = false := by simpa [Option.all] using h
    simp [stop, hopen]

/-- Witness for C8: an absent handle and a closed port (with pending script
bytes that must not be touched). -/
theorem claim_C8_witness :
    stop none = (none, [])
    ∧ stop (some ⟨false, [[0x41]]⟩) = (none, []) :=
  ⟨claim_C8 none (by decide), claim_C8 (some ⟨false, [[0x41]]⟩) (by decide)⟩

/-! ### FileManager.parse_read_file_result (src/src/worker/file_manager.py)

Python `str` values are modelled as `List Char`; `str.find` is `strFind`,
`in` is `containsB`, slicing `raw[a:b]` is `(raw.take b).drop a`. -/

def file_start_marker : List Char := "<<<FILE_START>>>".toList

def file_end_marker : List Char := "<<<FILE_END>>>".toList

def error_marker : List Char := "<<<ERROR>>>".toList

/-- Python `str.strip`'s whitespace test, restricted to the ASCII whitespace
characters (space, tab, LF, CR, VT, FF); the Unicode spaces Python also
strips never occur in the hex payloads concerned. -/
def isPyWs (c : Char) : Bool :=
  c.toNat = 32 || c.toNat = 9 || c.toNat = 10 || c.toNat = 13
    || c.toNat = 11 || c.toNat = 12

/-- Python `str.strip`. -/
def pyStrip (l : List Char) : List Char :=
  ((l.dropWhile isPyWs).reverse.dropWhile isPyWs).reverse

/-- One hex digit in either case, as `binascii.unhexlify` accepts. -/
def hexVal (c : Char) : Option Nat :=
  if 48 ≤ c.toNat ∧ c.toNat ≤ 57 then some (c.toNat - 48)
  else if 97 ≤ c.toNat ∧ c.toNat ≤ 102 then some (c.toNat - 87)
  else if 65 ≤ c.toNat ∧ c.toNat ≤ 70 then some (c.toNat - 55)
  else none

/-- `binascii.unhexlify`: strict — fails on odd length or any non-hex
character (raising `binascii.Error` in Python, `none` here). -/
def unhexlify : List Char → Option (List Nat)
  | [] => some []
  | [_] => none
  | h :: l :: rest =>
    match hexVal h, hexVal l, unhexlify rest with
    | some a, some b, some bs => some ((16 * a + b) :: bs)
    | _, _, _ => none

/-- `FileManager.parse_read_file_result`: an `<<<ERROR>>>` marker anywhere is
failure; (legacy) `ERROR:` without `<<<FILE_START>>>` is failure; either
sentinel absent is failure; otherwise the slice strictly between the first
occurrences of the sentinels is stripped of surrounding whitespace and
hex-decoded — a decode error is failure, success returns the decoded bytes.
Failure messages are dropped: `none` is failure, `some bytes` success. -/
def parse_read_file_result (raw : List Char) : Option (List Nat) :=
  if containsB raw error_marker then none
  else if containsB raw ("ERROR:".toList) && !(containsB raw file_start_marker) then none
  else
    match strFind file_start_marker raw, strFind file_end_marker raw with
    | some start_idx, some end_idx =>
      unhexlify (pyStrip ((raw.take end_idx).drop (start_idx + 16)))
    | _, _ => none

/-- One lowercase hex digit, as `binascii.hexlify` produces. -/
def hexDig (n : Nat) : Char :=
  if n < 10 then Char.ofNat (48 + n) else Char.ofNat (87 + n)

/-- `binascii.hexlify(chunk).decode()` accumulated over the whole content:
two lowercase hex digits per byte (chunking by 256 bytes concatenates to the
same string). -/
def hexlify (bs : List Nat) : List Char :=
  (bs.map (fun b => [hexDig (b / 16), hexDig (b % 16)])).flatten

/-- The text the generated read-file program (generate_read_file_code) emits
for file content `bs`: the hex of the content between the two sentinels. -/
def read_file_output (bs : List Nat) : List Char :=
  file_start_marker ++ hexlify bs ++ file_end_marker

/-! ### Search lemmas for the sentinel round trip -/

theorem isPre_head_ne {α : Type} [DecidableEq α] {p c : α} (ps s : List α) (h : c ≠ p) :
    isPre (p :: ps) (c :: s) = false := by
  rw [isPre, if_neg (fun hpc => h hpc.symm)]

theorem strFind_cons_shift {α : Type} [DecidableEq α] (pat : List α) (c : α) (s : List α)
    (h : isPre pat (c :: s) = false) :
    strFind pat (c :: s) = (strFind pat s).map (· + 1) := by
  rw [strFind, if_neg (by simp [h])]

theorem strFind_of_isPre {α : Type} [DecidableEq α] {pat s : List α}
    (h : isPre pat s = true) : strFind pat s = some 0 := by
  cases s with
  | nil => rw [strFind, if_pos h]
  | cons c r => rw [strFind, if_pos h]

theorem isPre_append_long {α : Type} [DecidableEq α] :
    ∀ (pat conc s : List α), pat.length ≤ conc.length →
    isPre pat (conc ++ s) = isPre pat conc := by
  intro pat
  induction pat with
  | nil => intro conc s h; rfl
  | cons a as ih =>
    intro conc s h
    cases conc with
    | nil => simp at h
    | cons c cs =>
      rw [List.cons_append, isPre, isPre]
      by_cases hac : a = c
      · rw [if_pos hac, if_pos hac, ih cs s (by simpa using h)]
      · rw [if_neg hac, if_neg hac]

theorem strFind_skip_of_all_ne {pat : List Char} (p : Char) (hp : pat.head? = some p) :
    ∀ (blk s : List Char), (∀ c ∈ blk, c ≠ p) →
    strFind pat (blk ++ s) = (strFind pat s).map (· + blk.length) := by
  intro blk
  induction blk with
  | nil =>
    intro s h
    cases o : strFind pat s <;> simp [o]
  | cons c cs ih =>
    intro s h
    rcases pat with _ | ⟨q, qs⟩
    · cases hp
    · have hq : q = p := by simpa using hp
      have hne : isPre (q :: qs) (c :: (cs ++ s)) = false :=
        isPre_head_ne qs (cs ++ s) (by rw [hq]; exact h c (by simp))
      rw [List.cons_append, strFind_cons_shift _ _ _ hne,
        ih s (fun x hx => h x (by simp [hx]))]
      cases o : strFind (q :: qs) s
      · simp [o]
      · simp [o]
        omega

theorem hexDig_facts (n : Nat) (h : n < 16) :
    hexVal (hexDig n) = some n ∧ (hexDig n).toNat ≠ 60 ∧ isPyWs (hexDig n) = false := by
  interval_cases n <;> exact ⟨by decide, by decide, by decide⟩

theorem mem_hexlify {bs : List Nat} (hb : ∀ b ∈ bs, b < 256) {c : Char}
    (hc : c ∈ hexlify bs) : ∃ n, n < 16 ∧ c = hexDig n := by
  induction bs with
  | nil => cases hc
  | cons b rest ih =>
    rw [hexlify, List.map_cons, List.flatten_cons] at hc
    have hblt : b < 256 := hb b (by simp)
    rcases List.mem_append.mp hc with hc | hc
    · rcases List.mem_cons.mp hc with hc | hc
      · exact ⟨b / 16, by omega, hc⟩
      · rcases List.mem_cons.mp hc with hc | hc
        · exact ⟨b % 16, by omega, hc⟩
        · cases hc
    · exact ih (fun x hx => hb x (by simp [hx])) hc

theorem hexlify_ne_lt {bs : List Nat} (hb : ∀ b ∈ bs, b < 256) :
    ∀ c ∈ hexlify bs, c ≠ Char.ofNat 60 := by
  intro c hc heq
  obtain ⟨n, hn, rfl⟩ := mem_hexlify hb hc
  have h60 := (hexDig_facts n hn).2.1
  rw [heq] at h60
  exact h60 (by decide)

theorem hexlify_not_ws {bs : List Nat} (hb : ∀ b ∈ bs, b < 256) :
    ∀ c ∈ hexlify bs, isPyWs c = false := by
  intro c hc
  obtain ⟨n, hn, rfl⟩ := mem_hexlify hb hc
  exact (hexDig_facts n hn).2.2

theorem unhexlify_hexlify {bs : List Nat} (hb : ∀ b ∈ bs, b < 256) :
    unhexlify (hexlify bs) = some bs := by
  induction bs with
  | nil => rfl
  | cons b rest ih =>
    have hblt : b < 256 := hb b (by simp)
    have hih := ih (fun x hx => hb x (by simp [hx]))
    have h1 := (hexDig_facts (b / 16) (by omega)).1
    have h2 := (hexDig_facts (b % 16) (by omega)).1
    show unhexlify (hexDig (b / 16) :: hexDig (b % 16) :: hexlify rest) = _
    rw [unhexlify, h1, h2, hih]
    show some ((16 * (b / 16) + b % 16) :: rest) = some (b :: rest)
    have : 16 * (b / 16) + b % 16 = b := by omega
    rw [this]

def fs_tail : List Char := "FILE_START>>>".toList

theorem strFind_end_marker_output (bs : List Nat) (hb : ∀ b ∈ bs, b < 256) :
    strFind file_end_marker (read_file_output bs) = some (16 + (hexlify bs).length) := by
  have e1 : read_file_output bs
      = Char.ofNat 60 :: (Char.ofNat 60 :: (Char.ofNat 60
        :: (fs_tail ++ (hexlify bs ++ file_end_marker)))) := rfl
  have hc0 : isPre file_end_marker (Char.ofNat 60 :: (Char.ofNat 60 :: (Char.ofNat 60
      :: (fs_tail ++ (hexlify bs ++ file_end_marker))))) = false := by
    rw [show Char.ofNat 60 :: (Char.ofNat 60 :: (Char.ofNat 60
        :: (fs_tail ++ (hexlify bs ++ file_end_marker))))
      = (Char.ofNat 60 :: Char.ofNat 60 :: Char.ofNat 60 :: fs_tail)
        ++ (hexlify bs ++ file_end_marker) from rfl]
    rw [isPre_append_long _ _ _ (by decide)]
    decide
  have hc1 : isPre file_end_marker (Char.ofNat 60 :: (Char.ofNat 60
      :: (fs_tail ++ (hexlify bs ++ file_end_marker)))) = false := by
    rw [show Char.ofNat 60 :: (Char.ofNat 60 :: (fs_tail ++ (hexlify bs ++ file_end_marker)))
      = (Char.ofNat 60 :: Char.ofNat 60 :: fs_tail) ++ (hexlify bs ++ file_end_marker) from rfl]
    rw [isPre_append_long _ _ _ (by decide)]
    decide
  have hc2 : isPre file_end_marker (Char.ofNat 60
      :: (fs_tail ++ (hexlify bs ++ file_end_marker))) = false := by
    rw [show Char.ofNat 60 :: (fs_tail ++ (hexlify bs ++ file_end_marker))
      = (Char.ofNat 60 :: fs_tail) ++ (hexlify bs ++ file_end_marker) from rfl]
    rw [isPre_append_long _ _ _ (by decide)]
    decide
  rw [e1, strFind_cons_shift _ _ _ hc0, strFind_cons_shift _ _ _ hc1,
    strFind_cons_shift _ _ _ hc2]
  rw [strFind_skip_of_all_ne (Char.ofNat 60) (by decide) fs_tail _ (by decide)]
  rw [strFind_skip_of_all_ne (Char.ofNat 60) (by decide) (hexlify bs) _ (hexlify_ne_lt hb)]
  rw [strFind_of_isPre (isPre_refl file_end_marker)]
  have hft : fs_tail.length = 13 := by decide
  simp only [Option.map_some', Option.some.injEq, hft]
  omega

theorem strFind_error_output (bs : List Nat) (hb : ∀ b ∈ bs, b < 256) :
    strFind error_marker (read_file_output bs) = none := by
  have e1 : read_file_output bs
      = Char.ofNat 60 :: (Char.ofNat 60 :: (Char.ofNat 60
        :: (fs_tail ++ (hexlify bs ++ file_end_marker)))) := rfl
  have hc0 : isPre error_marker (Char.ofNat 60 :: (Char.ofNat 60 :: (Char.ofNat 60
      :: (fs_tail ++ (hexlify bs ++ file_end_marker))))) = false := by
    rw [show Char.ofNat 60 :: (Char.ofNat 60 :: (Char.ofNat 60
        :: (fs_tail ++ (hexlify bs ++ file_end_marker))))
      = (Char.ofNat 60 :: Char.ofNat 60 :: Char.ofNat 60 :: fs_tail)
        ++ (hexlify bs ++ file_end_marker) from rfl]
    rw [isPre_append_long _ _ _ (by decide)]
    decide
  have hc1 : isPre error_marker (Char.ofNat 60 :: (Char.ofNat 60
      :: (fs_tail ++ (hexlify bs ++ file_end_marker)))) = false := by
    rw [show Char.ofNat 60 :: (Char.ofNat 60 :: (fs_tail ++ (hexlify bs ++ file_end_marker)))
      = (Char.ofNat 60 :: Char.ofNat 60 :: fs_tail) ++ (hexlify bs ++ file_end_marker) from rfl]
    rw [isPre_append_long _ _ _ (by decide)]
    decide
  have hc2 : isPre error_marker (Char.ofNat 60
      :: (fs_tail ++ (hexlify bs ++ file_end_marker))) = false := by
    rw [show Char.ofNat 60 :: (fs_tail ++ (hexlify bs ++ file_end_marker))
      = (Char.ofNat 60 :: fs_tail) ++ (hexlify bs ++ file_end_marker) from rfl]
    rw [isPre_append_long _ _ _ (by decide)]
    decide
  rw [e1, strFind_cons_shift _ _ _ hc0, strFind_cons_shift _ _ _ hc1,
    strFind_cons_shift _ _ _ hc2]
  rw [strFind_skip_of_all_ne (Char.ofNat 60) (by decide) fs_tail _ (by decide)]
  rw [strFind_skip_of_all_ne (Char.ofNat 60) (by decide) (hexlify bs) _ (hexlify_ne_lt hb)]
  rw [show strFind error_marker file_end_marker = none from by decide]
  rfl

theorem strFind_start_output (bs : List Nat) :
    strFind file_start_marker (read_file_output bs) = some 0 := by
  apply strFind_of_isPre
  rw [show read_file_output bs = file_start_marker ++ (hexlify bs ++ file_end_marker) from rfl]
  exact isPre_append_right _ (isPre_refl _)

theorem slice_output (bs : List Nat) :
    ((read_file_output bs).take (16 + (hexlify bs).length)).drop 16 = hexlify bs := by
  have e : read_file_output bs = (file_start_marker ++ hexlify bs) ++ file_end_marker := rfl
  have h16 : file_start_marker.length = 16 := by decide
  have hlen : (file_start_marker ++ hexlify bs).length = 16 + (hexlify bs).length := by
    rw [List.length_append, h16]
  rw [e, ← hlen, List.take_left, ← h16, List.drop_left]

theorem pyStrip_eq_self {l : List Char} (h : ∀ c ∈ l, isPyWs c = false) :
    pyStrip l = l := by
  rw [pyStrip]
  have h1 : l.dropWhile isPyWs = l := by
    cases l with
    | nil => rfl
    | cons c r =>
      rw [List.dropWhile_cons, h c (by simp)]
      simp
  rw [h1]
  have h2 : l.reverse.dropWhile isPyWs = l.reverse := by
    cases hr : l.reverse with
    | nil => rfl
    | cons c r =>
      have hc : c ∈ l := by rw [← List.mem_reverse, hr]; simp
      rw [List.dropWhile_cons, h c hc]
      simp
  rw [h2, List.reverse_reverse]

/-- C7 counterexample: on the captured output
`"<<<FILE_START>>> 61<<<FILE_END>>>"` the substring between the sentinels is
`" 61"`, which is not valid hex (`unhexlify` rejects the space), so the claim
says the parser fails — but the code strips surrounding whitespace before
decoding and succeeds, returning the byte `0x61`. -/
theorem claim_C7_counterexample :
    strFind file_start_marker ("<<<FILE_START>>> 61<<<FILE_END>>>".toList) = some 0
    ∧ strFind file_end_marker ("<<<FILE_START>>> 61<<<FILE_END>>>".toList) = some 19
    ∧ ((("<<<FILE_START>>> 61<<<FILE_END>>>".toList).take 19).drop 16) = " 61".toList
    ∧ unhexlify (" 61".toList) = none
    ∧ parse_read_file_result ("<<<FILE_START>>> 61<<<FILE_END>>>".toList) = some [0x61] := by
  exact ⟨by decide, by decide, by decide, by decide, by decide⟩

/-- C7 (amended): the parser fails when the `<<<FILE_START>>>` or
`<<<FILE_END>>>` sentinel is absent or an `<<<ERROR>>>` marker is present,
and fails when the substring between the sentinels, *after stripping
surrounding whitespace*, is not valid hex; otherwise it succeeds with the
hex-decoding of that stripped substring.  In particular arbitrary binary
content (any bytes, including newlines and control bytes) hex-encoded
between the sentinels is recovered exactly. -/
theorem claim_C7_amended :
    (∀ (bs : List Nat), (∀ b ∈ bs, b < 256) →
        parse_read_file_result (read_file_output bs) = some bs)
    ∧ (∀ raw, containsB raw error_marker = true → parse_read_file_result raw = none)
    ∧ (∀ raw, strFind file_start_marker raw = none → parse_read_file_result raw = none)
    ∧ (∀ raw, strFind file_end_marker raw = none → parse_read_file_result raw = none)
    ∧ (∀ raw si ei, containsB raw error_marker = false →
        strFind file_start_marker raw = some si → strFind file_end_marker raw = some ei →
        unhexlify (pyStrip ((raw.take ei).drop (si + 16))) = none →
        parse_read_file_result raw = none) := by
  refine ⟨?_, ?_, ?_, ?_, ?_⟩
  · intro bs hb
    rw [parse_read_file_result]
    have herr : containsB (read_file_output bs) error_marker = false := by
      rw [containsB, strFind_error_output bs hb]; rfl
    rw [if_neg (by simp [herr])]
    have hstart : containsB (read_file_output bs) file_start_marker = true := by
      rw [containsB, strFind_start_output bs]; rfl
    rw [if_neg (by simp [hstart])]
    rw [strFind_start_output bs, strFind_end_marker_output bs hb]
    show unhexlify (pyStrip (((read_file_output bs).take
      (16 + (hexlify bs).length)).drop (0 + 16))) = some bs
    rw [Nat.zero_add, slice_output bs, pyStrip_eq_self (hexlify_not_ws hb),
      unhexlify_hexlify hb]
  · intro raw h
    rw [parse_read_file_result, if_pos (by simp [h])]
  · intro raw h
    rw [parse_read_file_result]
    by_cases he : containsB raw error_marker = true
    · rw [if_pos (by simp [he])]
    · rw [if_neg (by simpa using he)]
      by_cases hl : (containsB raw ("ERROR:".toList) && !(containsB raw file_start_marker)) = true
      · rw [if_pos (by simp_all)]
      · rw [if_neg (by simpa using hl), h]
  · intro raw h
    rw [parse_read_file_result]
    by_cases he : containsB raw error_marker = true
    · rw [if_pos (by simp [he])]
    · rw [if_neg (by simpa using he)]
      by_cases hl : (containsB raw ("ERROR:".toList) && !(containsB raw file_start_marker)) = true
      · rw [if_pos (by simp_all)]
      · rw [if_neg (by simpa using hl), h]
        cases strFind file_start_marker raw <;> rfl
  · intro raw si ei he hs hend hdec
    rw [parse_read_file_result, if_neg (by simp [he])]
    by_cases hl : (containsB raw ("ERROR:".toList) && !(containsB raw file_start_marker)) = true
    · rw [if_pos (by simp_all)]
    · rw [if_neg (by simpa using hl), hs, hend]
      exact hdec

/-- Witness for C7 (amended), at content bytes including a NUL, a newline and
a non-UTF8 byte, plus the failure branches at concrete inputs. -/
theorem claim_C7_witness :
    parse_read_file_result (read_file_output [0x00, 0x0A, 0xFF, 0x61]) = some [0x00, 0x0A, 0xFF, 0x61]
    ∧ parse_read_file_result ("<<<ERROR>>>boom".toList) = none
    ∧ parse_read_file_result ("no markers".toList) = none :=
  ⟨claim_C7_amended.1 [0x00, 0x0A, 0xFF, 0x61] (by decide),
   claim_C7_amended.2.1 ("<<<ERROR>>>boom".toList) (by decide),
   claim_C7_amended.2.2.1 ("no markers".toList) (by decide)⟩

/-! ### Delete-path operation
(FileManager.generate_delete_path_code / parse_delete_path_result,
DeviceWorker.do_delete_path, and the generated remote program) -/

def success_marker : List Char := "<<<SUCCESS>>>".toList

/-- `FileManager.parse_delete_path_result`: success iff the success sentinel
is present and the error sentinel is not. -/
def parse_delete_path_result (raw : List Char) : Bool :=
  containsB raw success_marker && !(containsB raw error_marker)

/-- The escaping step `path.replace("'", "\\'")` shared by the code
generators. -/
def escape_chars : List Char → List Char
  | [] => []
  | c :: r =>
    if c.toNat = 39 then Char.ofNat 92 :: Char.ofNat 39 :: escape_chars r
    else c :: escape_chars r

def escape_path (path : String) : String := String.mk (escape_chars path.toList)

/-- `FileManager.generate_delete_path_code`: the exact remote program text
(the f-string with the escaped path spliced in, after `.strip()`); `\x27` is
the single-quote character. -/
def generate_delete_path_code (path : String) : String :=
  "import sys, os\ndef _join(parent, name):\n    return parent + \x27/\x27 + name if parent != \x27/\x27 else \x27/\x27 + name\n\ndef _remove(target):\n    if target in (\x27\x27, \x27/\x27):\n        raise ValueError(\x27Cannot delete root\x27)\n    stat = os.stat(target)\n    is_dir = stat[0] & 0x4000\n    if is_dir:\n        for entry in os.listdir(target):\n            _remove(_join(target, entry))\n        os.rmdir(target)\n    else:\n        os.remove(target)\n\ntry:\n    _remove(\x27"
    ++ escape_path path
    ++ "\x27)\n    sys.stdout.write(\x27<<<SUCCESS>>>\x27)\nexcept Exception as e:\n    sys.stdout.write(\x27<<<ERROR>>>\x27)\n    sys.stdout.write(str(e))"

/-- Bytes of a (modelled ASCII) device response decoded to characters. -/
def bytes_to_chars (bs : List Nat) : List Char := bs.map Char.ofNat

/-- `DeviceWorker.do_delete_path` for a connected device, against a scripted
byte stream: it always generates the delete code for the requested path —
with no inspection of the path — clears the input buffer, writes the code
and `0x04`, reads until `OK` (~2s; a missing `OK` reports busy/failure),
then reads until `0x04 0x04` (~5s) and parses the sentinels.  Returns the
`delete_path_finished` success flag and the transport actions performed. -/
def do_delete_path (connected : Bool) (path : String) (stream : List Nat) :
    Bool × List Act :=
  if connected = false then (false, [])
  else
    let code := generate_delete_path_code path
    let acts0 : List Act := [Act.clear_input, Act.write (strBytes code), Act.write [0x04]]
    let r := read_until [0x4F, 0x4B] [] stream
    if containsB r.1 [0x4F, 0x4B] = false then (false, acts0 ++ [Act.read r.1])
    else
      let r2 := read_until [0x04, 0x04] [] r.2
      (parse_delete_path_result (bytes_to_chars r2.1),
       acts0 ++ [Act.read r.1, Act.read r2.1])

/-- The model filesystem of the remote device: absolute paths with a
directory flag. -/
abbrev FS := List (String × Bool)

/-- The generated program's `_join`. -/
def fs_join (parent name : String) : String :=
  if parent ≠ "/" then parent ++ "/" ++ name else "/" ++ name

/-- `os.stat` on the model: the directory flag of an existing entry. -/
def lookupFS (fs : FS) (target : String) : Option Bool :=
  (fs.find? (fun e => e.1 == target)).map (·.2)

/-- A direct child name of `target`, if `p` is one. -/
def child_name (target p : String) : Option String :=
  let pre := (if target = "/" then "/" else target ++ "/").toList
  let pl := p.toList
  if isPre pre pl then
    let rest := pl.drop pre.length
    if rest ≠ [] ∧ rest.contains (Char.ofNat 47) = false then some (String.mk rest)
    else none
  else none

/-- `os.listdir` on the model. -/
def listdirFS (fs : FS) (target : String) : List String :=
  fs.filterMap (fun e => child_name target e.1)

/-- `os.remove` / `os.rmdir` on the model. -/
def eraseFS (fs : FS) (target : String) : FS :=
  fs.filter (fun e => !(e.1 == target))

/-- The loop `for entry in os.listdir(target): _remove(_join(target, entry))`
of the generated program, with `rr` the recursive remove. -/
def remove_children (rr : FS → String → Except String FS) :
    FS → List String → String → Except String FS
  | fs, [], _ => .ok fs
  | fs, n :: ns, t =>
    match rr fs (fs_join t n) with
    | .error e => .error e
    | .ok fs2 => remove_children rr fs2 ns t

/-- One unfolding of the generated program's `_remove`: the root guard is
checked first — `target in ('', '/')` raises `ValueError('Cannot delete
root')` before any filesystem call — then stat, recursive removal of
children for a directory, and the final rmdir/remove. -/
def remote_remove_step (rr : FS → String → Except String FS) (fs : FS)
    (target : String) : Except String FS :=
  if target = "" ∨ target = "/" then .error "Cannot delete root"
  else
    match lookupFS fs target with
    | none => .error "ENOENT"
    | some is_dir =>
      if is_dir then
        match remove_children rr fs (listdirFS fs target) target with
        | .error e => .error e
        | .ok fs2 => .ok (eraseFS fs2 target)
      else .ok (eraseFS fs target)

/-- The generated program's `_remove`, with a recursion-depth fuel (the
MicroPython interpreter likewise has a recursion limit; the theorems below
only need one unfolding). -/
def remote_remove : Nat → FS → String → Except String FS
  | 0 => fun _ _ => Except.error "recursion depth exceeded"
  | fuel + 1 => remote_remove_step (remote_remove fuel)

/-- The generated program's `try/except` wrapper: `<<<SUCCESS>>>` on
success, `<<<ERROR>>>` plus the message on exception, with the filesystem
left as the failed `_remove` left it. -/
def run_delete_program (fuel : Nat) (fs : FS) (path : String) : FS × List Char :=
  match remote_remove fuel fs path with
  | .ok fs2 => (fs2, "<<<SUCCESS>>>".toList)
  | .error e => (fs, "<<<ERROR>>>".toList ++ e.toList)

set_option maxRecDepth 4000 in
/-- C6 counterexample: with a connected device, `do_delete_path` for the
root path `"/"` generates the delete code and writes it to the transport —
so delete code for the root path *is* generated and sent, contrary to the
claim that the request is rejected before any remote code is generated or
executed. -/
theorem claim_C6_counterexample :
    Act.write (strBytes (generate_delete_path_code "/"))
      ∈ (do_delete_path true "/" (strBytes "OK" ++ [0x04, 0x04])).2
    ∧ generate_delete_path_code "/" ≠ "" := by
  exact ⟨by decide, by decide⟩

/-- C6 (amended): the host performs no root-path check — for every path and
every device response, `do_delete_path` on a connected session writes the
generated delete code to the transport.  The deliberate safety invariant
lives in the generated remote program itself: its `_remove` raises
`Cannot delete root` for target `""` or `"/"` before touching the
filesystem, so running the delete program on the root leaves every
filesystem unchanged, emits `<<<ERROR>>>Cannot delete root`, and the host
parses that as failure. -/
theorem claim_C6_amended :
    (∀ (path : String) (stream : List Nat),
        Act.write (strBytes (generate_delete_path_code path))
          ∈ (do_delete_path true path stream).2)
    ∧ (∀ (fs : FS) (fuel : Nat),
        remote_remove (fuel + 1) fs "/" = Except.error "Cannot delete root"
        ∧ remote_remove (fuel + 1) fs "" = Except.error "Cannot delete root"
        ∧ run_delete_program (fuel + 1) fs "/"
            = (fs, "<<<ERROR>>>".toList ++ "Cannot delete root".toList)
        ∧ parse_delete_path_result ("<<<ERROR>>>".toList ++ "Cannot delete root".toList)
            = false) := by
  constructor
  · intro path stream
    by_cases hok : containsB (read_until [0x4F, 0x4B] [] stream).1 [0x4F, 0x4B] = false
    · simp [do_delete_path, hok]
    · simp [do_delete_path, hok]
  · intro fs fuel
    refine ⟨?_, ?_, ?_, by decide⟩
    · simp [remote_remove, remote_remove_step]
    · simp [remote_remove, remote_remove_step]
    · simp [run_delete_program, remote_remove, remote_remove_step]
